import Mathlib

/-!
Shallow embedding of the two scripts of this repository:

* `scripts/split_tasks_to_projects.py` — the task-partition loop of `main`
  (lines 170-180), the move loop (lines 183-192), the bucket-order
  construction (line 123) and the empty-task early return (lines 115-117).
* `scripts/generate_project_tasks.py` — `pick_owner` (lines 144-165) and the
  per-run quota threading of `max_william` through repeated calls.

Machine integers are `Nat`/`Int`; the uniform random variate consumed by
`random.choices` is an explicit rational argument `u` compared against
cumulative weights, exactly as the CPython implementation does.
-/

/-- A `Project_Task__c` record as queried by the split script:
`SELECT Id, Name, Project__c` (line 112). -/
structure ProjectTask where
  id : String
  name : String
  project : String
deriving DecidableEq

/-- The partition loop of `split_tasks_to_projects.main` (lines 174-179):
walking the bucket list with a running index `i` and a running `task_idx`,
the i-th bucket receives the slice
`tasks[task_idx : task_idx + tasks_per_project + (1 if i < remainder else 0)]`. -/
def sliceLoop (tasks : List ProjectTask) (base rem : Nat) :
    Nat → Nat → List String → List (String × List ProjectTask)
  | _, _, [] => []
  | i, idx, b :: bs =>
    (b, (tasks.drop idx).take (base + if i < rem then 1 else 0)) ::
      sliceLoop tasks base rem (i + 1) (idx + (base + if i < rem then 1 else 0)) bs

/-- Lines 170-180 of the split script: `tasks_per_project = len(tasks) //
len(projects_to_use)`, `remainder = len(tasks) % len(projects_to_use)`, then
the partition loop.  (The `random.shuffle` on line 170 permutes `tasks`
before this point; `distribute` receives the already-shuffled list.) -/
def distribute (tasks : List ProjectTask) (buckets : List String) :
    List (String × List ProjectTask) :=
  sliceLoop tasks (tasks.length / buckets.length) (tasks.length % buckets.length)
    0 0 buckets

/-- The update loop of the split script (lines 183-192): every bucket other
than the original project emits one `Project__c` update per task in its
slice; the original bucket is skipped wholesale via `continue`. -/
def moveUpdates (origId : String) : List (String × List ProjectTask) → List (ProjectTask × String)
  | [] => []
  | (pid, ts) :: rest =>
    if pid = origId then moveUpdates origId rest
    else ts.map (fun t => (t, pid)) ++ moveUpdates origId rest

/-- Line 123 of the split script: `projects_to_use = [args.project_id]`,
followed by appends of created or existing project ids.  The original
project is always the first bucket. -/
def projectsToUse (origId : String) (others : List String) : List String :=
  origId :: others

/-- Outcome of one run of `split_tasks_to_projects.main` after the task
query: either the early `return` of lines 115-117 (no projects created, no
tasks updated), or a computed distribution together with its update list. -/
inductive SplitResult where
  | noTasks : SplitResult
  | done : List (String × List ProjectTask) → List (ProjectTask × String) → SplitResult
deriving DecidableEq

/-- The control flow of `split_tasks_to_projects.main` from line 115 on:
`if len(tasks) == 0: return` happens before any project is created or any
task updated; otherwise the bucket list (original project first) is built,
tasks are partitioned and the move updates are emitted. -/
def splitTasksMain (origId : String) (tasks : List ProjectTask) (others : List String) :
    SplitResult :=
  if tasks.length = 0 then .noTasks
  else
    .done (distribute tasks (projectsToUse origId others))
      (moveUpdates origId (distribute tasks (projectsToUse origId others)))

/-- Total number of items the partition loop hands out over `n` buckets when
the remainder still to be spread is `rem`: each bucket takes `base` plus one
extra while remainder lasts. -/
def allocTotal (base : Nat) : Nat → Nat → Nat
  | _, 0 => 0
  | rem, n + 1 => (base + if 0 < rem then 1 else 0) + allocTotal base (rem - 1) n

/-- Owner descriptor threaded through `generate_project_tasks.py`: the dicts
built on lines 209, 214-218 and 222-230 with keys `user_id`, `contact_id`,
`account_id` (the latter two may be `None`). -/
structure OwnerInfo where
  user_id : String
  contact_id : Option String
  account_id : Option String
deriving DecidableEq

/-- Candidate-list construction of `pick_owner` (lines 152-157): `me` always
with weight 0.55, Kevin with 0.35 when found, and William with 0.10 only when
`william.get("account_id") == account_id` and `max_william["remaining"] > 0`. -/
def buildCandidates (account_id : String) (me : OwnerInfo)
    (kevin : Option OwnerInfo) (william : Option OwnerInfo)
    (remaining : Int) : List (ℚ × OwnerInfo) :=
  [((0.55 : ℚ), me)]
    ++ (match kevin with
        | some k => [((0.35 : ℚ), k)]
        | none => [])
    ++ (match william with
        | some w =>
          if w.account_id = some account_id ∧ 0 < remaining then [((0.10 : ℚ), w)]
          else []
        | none => [])

/-- Index selected by `random.choices(candidates, weights=ws, k=1)` for a
uniform variate `u`: CPython computes cumulative weights and returns the
first index whose cumulative weight exceeds `u * total` (bisect_right); with
the already-normalized weights of line 161 the total is 1 and the comparand
is `u` itself. -/
def pickIndex : List ℚ → ℚ → Nat
  | [], _ => 0
  | w :: ws, u => if u < w then 0 else pickIndex ws (u - w) + 1

/-- Line 159 of the generate script: `weights = [c["weight"] for c in candidates]`. -/
def candWeights (account_id : String) (me : OwnerInfo)
    (kevin : Option OwnerInfo) (william : Option OwnerInfo)
    (remaining : Int) : List ℚ :=
  (buildCandidates account_id me kevin william remaining).map (fun c => c.1)

/-- Lines 160-161 of the generate script: `total = sum(weights)` and
`weights = [w / total for w in weights]`. -/
def normWeights (account_id : String) (me : OwnerInfo)
    (kevin : Option OwnerInfo) (william : Option OwnerInfo)
    (remaining : Int) : List ℚ :=
  (candWeights account_id me kevin william remaining).map
    (fun w => w / (candWeights account_id me kevin william remaining).sum)

/-- Line 162 of the generate script: the candidate drawn by
`random.choices(candidates, weights=weights, k=1)[0]` at variate `u`.  The
default of `getD` is never reached for `0 ≤ u < 1` because the candidate
list is non-empty and the normalized weights sum to 1. -/
def pickChoice (account_id : String) (me : OwnerInfo)
    (kevin : Option OwnerInfo) (william : Option OwnerInfo)
    (remaining : Int) (u : ℚ) : OwnerInfo :=
  ((buildCandidates account_id me kevin william remaining).getD
      (pickIndex (normWeights account_id me kevin william remaining) u)
      ((0 : ℚ), me)).2

/-- Lines 144-165 of the generate script, `pick_owner`: build the candidate
list, normalize weights, draw one candidate, and decrement
`max_william["remaining"]` exactly when the chosen user id equals William's
user id (line 163 compares against `None` when William was not found, which
never matches a real user id, modelled by the `none` arm).  The mutable
counter is threaded explicitly: the result pairs the chosen owner with the
updated remaining count. -/
def pick_owner (account_id : String) (me : OwnerInfo)
    (kevin : Option OwnerInfo) (william : Option OwnerInfo)
    (remaining : Int) (u : ℚ) : OwnerInfo × Int :=
  let choice := pickChoice account_id me kevin william remaining u
  if (match william with
      | some w => choice.user_id == w.user_id
      | none => false) then
    (choice, remaining - 1)
  else
    (choice, remaining)

/-- A run of the generate script restricted to one account: the successive
`pick_owner` calls of the task and subtask loops (lines 287 and 307), each
consuming one uniform variate and threading `max_william["remaining"]`.
Returns the chosen owners in order and the final remaining count. -/
def runPick (account_id : String) (me : OwnerInfo)
    (kevin : Option OwnerInfo) (william : Option OwnerInfo) :
    Int → List ℚ → List OwnerInfo × Int
  | r, [] => ([], r)
  | r, u :: us =>
    ((pick_owner account_id me kevin william r u).1 ::
        (runPick account_id me kevin william
          (pick_owner account_id me kevin william r u).2 us).1,
      (runPick account_id me kevin william
        (pick_owner account_id me kevin william r u).2 us).2)

/-- Concrete tasks used by the witness theorems: three tasks all starting in
project B0, as produced by the query on line 112. -/
def sampleTasks : List ProjectTask :=
  [⟨"t1", "Task 1", "B0"⟩, ⟨"t2", "Task 2", "B0"⟩, ⟨"t3", "Task 3", "B0"⟩]

/-- Concrete bucket list for the witness theorems. -/
def sampleBuckets : List String := ["B0", "B1"]

/-- Concrete current user for the witness theorems. -/
def meSample : OwnerInfo := ⟨"um", some "cm", none⟩

/-- Concrete Kevin record for the witness theorems. -/
def kevinSample : OwnerInfo := ⟨"uk", some "ck", some "ak"⟩

/-- Concrete William record for the witness theorems; his account is "aw". -/
def williamSample : OwnerInfo := ⟨"uw", some "cw", some "aw"⟩

lemma allocTotal_eq (base : Nat) :
    ∀ (n rem : Nat), allocTotal base rem n = n * base + min rem n := by
  intro n
  induction n with
  | zero => intro rem; simp [allocTotal]
  | succ n ih =>
    intro rem
    simp only [allocTotal]
    rw [ih (rem - 1), Nat.succ_mul]
    generalize n * base = t
    by_cases h0 : 0 < rem <;> simp [h0] <;> omega

lemma alloc_full (M K : Nat) (hK : 0 < K) : allocTotal (M / K) (M % K) K = M := by
  rw [allocTotal_eq]
  have h1 : K * (M / K) + M % K = M := Nat.div_add_mod M K
  have h2 : M % K < K := Nat.mod_lt M hK
  generalize hX : K * (M / K) = X at h1 ⊢
  generalize hR : M % K = R at h1 h2 ⊢
  omega

lemma rangemap_sum (base rem : Nat) :
    ∀ K, ((List.range K).map (fun j => base + if j < rem then 1 else 0)).sum
      = K * base + min rem K := by
  intro K
  induction K with
  | zero => simp
  | succ K ih =>
    rw [List.range_succ, List.map_append, List.sum_append, ih, Nat.succ_mul]
    generalize K * base = t
    by_cases hKr : K < rem <;> simp [hKr] <;> omega

lemma rangemap_count (base rem : Nat) :
    ∀ K, ((List.range K).map (fun j => base + if j < rem then 1 else 0)).count (base + 1)
      = min rem K := by
  intro K
  induction K with
  | zero => simp
  | succ K ih =>
    rw [List.range_succ, List.map_append, List.count_append, ih]
    by_cases hKr : K < rem <;> simp [hKr, List.count_cons] <;> omega

lemma sliceLoop_lengths (tasks : List ProjectTask) (base rem : Nat) :
    ∀ (bs : List String) (i idx : Nat),
      idx + allocTotal base (rem - i) bs.length ≤ tasks.length →
      (sliceLoop tasks base rem i idx bs).map (fun p => p.2.length)
        = (List.range bs.length).map (fun j => base + if j < rem - i then 1 else 0) := by
  intro bs
  induction bs with
  | nil => intro i idx _; rfl
  | cons b bs ih =>
    intro i idx h
    simp only [List.length_cons, allocTotal] at h
    simp only [sliceLoop, List.map_cons, List.length_cons]
    rw [List.range_succ_eq_map, List.map_cons, List.map_map]
    have hcond : (i < rem) ↔ (0 < rem - i) := by omega
    have hhead : ((tasks.drop idx).take (base + if i < rem then 1 else 0)).length
        = base + if 0 < rem - i then 1 else 0 := by
      by_cases hir : i < rem
      · rw [if_pos hir, if_pos (hcond.mp hir)]
        rw [if_pos (hcond.mp hir)] at h
        rw [List.length_take, List.length_drop]
        omega
      · rw [if_neg hir, if_neg (fun hc => hir (hcond.mpr hc))]
        rw [if_neg (fun hc => hir (hcond.mpr hc))] at h
        rw [List.length_take, List.length_drop]
        omega
    have htail :
        (sliceLoop tasks base rem (i + 1) (idx + (base + if i < rem then 1 else 0)) bs).map
            (fun p => p.2.length)
          = (List.range bs.length).map
              ((fun j => base + if j < rem - i then 1 else 0) ∘ Nat.succ) := by
      rw [ih (i + 1) (idx + (base + if i < rem then 1 else 0))]
      · have hfun : ((fun j => base + if j < rem - i then 1 else 0) ∘ Nat.succ)
            = (fun j => base + if j < rem - (i + 1) then 1 else 0) := by
          funext j
          simp only [Function.comp]
          have hj : (Nat.succ j < rem - i) ↔ (j < rem - (i + 1)) := by omega
          simp only [hj]
        rw [hfun]
      · by_cases hir : i < rem
        · rw [if_pos hir]
          rw [if_pos (hcond.mp hir)] at h
          have : rem - i - 1 = rem - (i + 1) := by omega
          rw [this] at h
          omega
        · rw [if_neg hir]
          rw [if_neg (fun hc => hir (hcond.mpr hc))] at h
          have : rem - i - 1 = rem - (i + 1) := by omega
          rw [this] at h
          omega
    rw [hhead, htail]

lemma sliceLoop_join (tasks : List ProjectTask) (base rem : Nat) :
    ∀ (bs : List String) (i idx : Nat),
      ((sliceLoop tasks base rem i idx bs).map (fun p => p.2)).flatten
        = (tasks.drop idx).take (allocTotal base (rem - i) bs.length) := by
  intro bs
  induction bs with
  | nil => intro i idx; simp [sliceLoop, allocTotal]
  | cons b bs ih =>
    intro i idx
    simp only [sliceLoop, List.map_cons, List.flatten_cons, List.length_cons, allocTotal]
    have hcond : (i < rem) ↔ (0 < rem - i) := by omega
    have hc : (base + if i < rem then 1 else 0) = (base + if 0 < rem - i then 1 else 0) := by
      by_cases hir : i < rem
      · rw [if_pos hir, if_pos (hcond.mp hir)]
      · rw [if_neg hir, if_neg (fun hcx => hir (hcond.mpr hcx))]
    have hsub : rem - i - 1 = rem - (i + 1) := by omega
    rw [hsub, ih (i + 1) (idx + (base + if i < rem then 1 else 0)),
      List.take_add (tasks.drop idx) (base + if 0 < rem - i then 1 else 0)
        (allocTotal base (rem - (i + 1)) bs.length),
      ← hc, List.drop_drop]

lemma sliceLoop_subset (tasks : List ProjectTask) (base rem : Nat) :
    ∀ (bs : List String) (i idx : Nat) (p : String × List ProjectTask),
      p ∈ sliceLoop tasks base rem i idx bs → ∀ t ∈ p.2, t ∈ tasks := by
  intro bs
  induction bs with
  | nil => intro i idx p hp; simp [sliceLoop] at hp
  | cons b bs ih =>
    intro i idx p hp t htp
    rcases List.mem_cons.mp hp with he | hm
    · subst he
      exact List.mem_of_mem_drop (List.mem_of_mem_take htp)
    · exact ih _ _ p hm t htp

lemma sliceLoop_length_le (tasks : List ProjectTask) (base rem : Nat) :
    ∀ (bs : List String) (i idx : Nat) (p : String × List ProjectTask),
      p ∈ sliceLoop tasks base rem i idx bs →
      p.2.length ≤ base + if 0 < rem then 1 else 0 := by
  intro bs
  induction bs with
  | nil => intro i idx p hp; simp [sliceLoop] at hp
  | cons b bs ih =>
    intro i idx p hp
    rcases List.mem_cons.mp hp with he | hm
    · subst he
      refine le_trans (List.length_take_le _ _) ?_
      by_cases hir : i < rem
      · rw [if_pos hir, if_pos (by omega)]
      · rw [if_neg hir]
        omega
    · exact ih _ _ p hm

lemma distribute_lengths (tasks : List ProjectTask) (buckets : List String)
    (hb : buckets ≠ []) :
    (distribute tasks buckets).map (fun p => p.2.length)
      = (List.range buckets.length).map
          (fun j => tasks.length / buckets.length
            + if j < tasks.length % buckets.length then 1 else 0) := by
  have hK : 0 < buckets.length := List.length_pos.mpr hb
  have h := sliceLoop_lengths tasks (tasks.length / buckets.length)
    (tasks.length % buckets.length) buckets 0 0 ?_
  · simpa using h
  · rw [Nat.sub_zero, Nat.zero_add, alloc_full _ _ hK]

lemma distribute_sum (tasks : List ProjectTask) (buckets : List String)
    (hb : buckets ≠ []) :
    ((distribute tasks buckets).map (fun p => p.2.length)).sum = tasks.length := by
  have hK : 0 < buckets.length := List.length_pos.mpr hb
  rw [distribute_lengths tasks buckets hb, rangemap_sum]
  have h1 : buckets.length * (tasks.length / buckets.length)
      + tasks.length % buckets.length = tasks.length := Nat.div_add_mod _ _
  have h2 : tasks.length % buckets.length < buckets.length := Nat.mod_lt _ hK
  generalize hX : buckets.length * (tasks.length / buckets.length) = X at h1 ⊢
  generalize hR : tasks.length % buckets.length = R at h1 h2 ⊢
  omega

lemma distribute_join (tasks : List ProjectTask) (buckets : List String)
    (hb : buckets ≠ []) :
    ((distribute tasks buckets).map (fun p => p.2)).flatten = tasks := by
  have hK : 0 < buckets.length := List.length_pos.mpr hb
  unfold distribute
  rw [sliceLoop_join, Nat.sub_zero, List.drop_zero, alloc_full _ _ hK, List.take_length]

lemma moveUpdates_mem (origId : String) :
    ∀ (d : List (String × List ProjectTask)) (t : ProjectTask) (b : String),
      (t, b) ∈ moveUpdates origId d ↔ ∃ s, (b, s) ∈ d ∧ t ∈ s ∧ b ≠ origId := by
  intro d
  induction d with
  | nil => intro t b; simp [moveUpdates]
  | cons p d ih =>
    intro t b
    obtain ⟨pid, ts⟩ := p
    by_cases hp : pid = origId
    · subst hp
      rw [moveUpdates, if_pos rfl, ih t b]
      constructor
      · rintro ⟨s, hs, hts, hb⟩
        exact ⟨s, List.mem_cons_of_mem _ hs, hts, hb⟩
      · rintro ⟨s, hs, hts, hb⟩
        rcases List.mem_cons.mp hs with he | hm
        · injection he with h1 h2
          exact absurd h1 hb
        · exact ⟨s, hm, hts, hb⟩
    · rw [moveUpdates, if_neg hp]
      rw [List.mem_append, ih t b]
      constructor
      · rintro (hmap | ⟨s, hs, hts, hb⟩)
        · rcases List.mem_map.mp hmap with ⟨a, ha, he⟩
          injection he with h1 h2
          subst h1; subst h2
          exact ⟨ts, List.mem_cons_self _ _, ha, hp⟩
        · exact ⟨s, List.mem_cons_of_mem _ hs, hts, hb⟩
      · rintro ⟨s, hs, hts, hb⟩
        rcases List.mem_cons.mp hs with he | hm
        · injection he with h1 h2
          subst h1; subst h2
          exact Or.inl (List.mem_map.mpr ⟨t, hts, rfl⟩)
        · exact Or.inr ⟨s, hm, hts, hb⟩

lemma moveUpdates_length (origId : String) :
    ∀ d : List (String × List ProjectTask),
      (moveUpdates origId d).length
        = ((d.filter (fun p => !(p.1 == origId))).map (fun p => p.2.length)).sum := by
  intro d
  induction d with
  | nil => rfl
  | cons p d ih =>
    obtain ⟨pid, ts⟩ := p
    by_cases hp : pid = origId
    · subst hp
      simp [moveUpdates, List.filter_cons, ih]
    · simp [moveUpdates, hp, List.filter_cons, ih]

lemma sum_filter_split (origId : String) :
    ∀ d : List (String × List ProjectTask),
      ((d.filter (fun p => p.1 == origId)).map (fun p => p.2.length)).sum
        + ((d.filter (fun p => !(p.1 == origId))).map (fun p => p.2.length)).sum
      = (d.map (fun p => p.2.length)).sum := by
  intro d
  induction d with
  | nil => rfl
  | cons p d ih =>
    by_cases hp : p.1 = origId <;>
      simp [List.filter_cons, hp, ← ih] <;> omega

lemma distribute_cons (tasks : List ProjectTask) (b : String) (bs : List String) :
    distribute tasks (b :: bs)
      = (b, tasks.take (tasks.length / (b :: bs).length
            + if 0 < tasks.length % (b :: bs).length then 1 else 0)) ::
        sliceLoop tasks (tasks.length / (b :: bs).length)
          (tasks.length % (b :: bs).length) 1
          (tasks.length / (b :: bs).length
            + if 0 < tasks.length % (b :: bs).length then 1 else 0) bs := by
  simp [distribute, sliceLoop]

/-- C1: for every non-empty task list of size M and non-empty bucket list of
size K, the partition loop yields bucket sizes that sum to exactly M, the
i-th bucket (0-indexed) receiving M/K + 1 tasks when i < M % K and M/K tasks
otherwise, so exactly M % K buckets receive the larger count. -/
theorem split_partition_complete (tasks : List ProjectTask) (buckets : List String)
    (ht : tasks ≠ []) (hb : buckets ≠ []) :
    ((distribute tasks buckets).map (fun p => p.2.length)).sum = tasks.length ∧
    (distribute tasks buckets).map (fun p => p.2.length)
      = (List.range buckets.length).map
          (fun i => tasks.length / buckets.length
            + if i < tasks.length % buckets.length then 1 else 0) ∧
    ((distribute tasks buckets).map (fun p => p.2.length)).count
        (tasks.length / buckets.length + 1)
      = tasks.length % buckets.length := by
  have hK : 0 < buckets.length := List.length_pos.mpr hb
  refine ⟨distribute_sum tasks buckets hb, distribute_lengths tasks buckets hb, ?_⟩
  rw [distribute_lengths tasks buckets hb, rangemap_count]
  exact Nat.min_eq_left (le_of_lt (Nat.mod_lt _ hK))

/-- Witness for C1 at three tasks and two buckets. -/
theorem split_partition_complete_witness :
    sampleTasks ≠ [] ∧ sampleBuckets ≠ [] ∧
    (((distribute sampleTasks sampleBuckets).map (fun p => p.2.length)).sum
        = sampleTasks.length ∧
      (distribute sampleTasks sampleBuckets).map (fun p => p.2.length)
        = (List.range sampleBuckets.length).map
            (fun i => sampleTasks.length / sampleBuckets.length
              + if i < sampleTasks.length % sampleBuckets.length then 1 else 0) ∧
      ((distribute sampleTasks sampleBuckets).map (fun p => p.2.length)).count
          (sampleTasks.length / sampleBuckets.length + 1)
        = sampleTasks.length % sampleBuckets.length) :=
  ⟨by decide, by decide,
    split_partition_complete sampleTasks sampleBuckets (by decide) (by decide)⟩

/-- C2: for every non-empty task list and non-empty bucket list the slices
concatenate back to exactly the input list, and when the input has no
duplicates no task appears under two different buckets: the slices are
pairwise disjoint, a disjoint cover. -/
theorem split_disjoint_cover (tasks : List ProjectTask) (buckets : List String)
    (ht : tasks ≠ []) (hb : buckets ≠ []) :
    ((distribute tasks buckets).map (fun p => p.2)).flatten = tasks ∧
    (tasks.Nodup →
      ((distribute tasks buckets).map (fun p => p.2)).Pairwise List.Disjoint) := by
  refine ⟨distribute_join tasks buckets hb, fun hnd => ?_⟩
  have h : (((distribute tasks buckets).map (fun p => p.2)).flatten).Nodup := by
    rw [distribute_join tasks buckets hb]; exact hnd
  exact (List.nodup_flatten.mp h).2

/-- Witness for C2 at three tasks and two buckets. -/
theorem split_disjoint_cover_witness :
    sampleTasks ≠ [] ∧ sampleBuckets ≠ [] ∧
    (((distribute sampleTasks sampleBuckets).map (fun p => p.2)).flatten
        = sampleTasks ∧
      (sampleTasks.Nodup →
        ((distribute sampleTasks sampleBuckets).map (fun p => p.2)).Pairwise
          List.Disjoint)) :=
  ⟨by decide, by decide,
    split_disjoint_cover sampleTasks sampleBuckets (by decide) (by decide)⟩

/-- C3: when every task originates from the original project (as the query
on line 112 guarantees), a move update is emitted for a task if and only if
the task is assigned to a bucket different from its original project, and
the number of updates is the task count minus the size of the original
bucket's slice. -/
theorem split_move_list (tasks : List ProjectTask) (buckets : List String)
    (origId : String)
    (hproj : ∀ t ∈ tasks, t.project = origId)
    (ht : tasks ≠ []) (hb : buckets ≠ []) :
    (∀ t b, (t, b) ∈ moveUpdates origId (distribute tasks buckets) ↔
        ((∃ s, (b, s) ∈ distribute tasks buckets ∧ t ∈ s) ∧ b ≠ t.project)) ∧
    (moveUpdates origId (distribute tasks buckets)).length
      = tasks.length
        - (((distribute tasks buckets).filter (fun p => p.1 == origId)).map
            (fun p => p.2.length)).sum := by
  have hsub : ∀ p ∈ distribute tasks buckets, ∀ t ∈ p.2, t ∈ tasks :=
    fun p hp => sliceLoop_subset tasks _ _ buckets 0 0 p hp
  constructor
  · intro t b
    rw [moveUpdates_mem]
    constructor
    · rintro ⟨s, hs, hts, hbne⟩
      have htt : t ∈ tasks := hsub (b, s) hs t hts
      rw [hproj t htt]
      exact ⟨⟨s, hs, hts⟩, hbne⟩
    · rintro ⟨⟨s, hs, hts⟩, hbne⟩
      have htt : t ∈ tasks := hsub (b, s) hs t hts
      rw [hproj t htt] at hbne
      exact ⟨s, hs, hts, hbne⟩
  · have h1 := moveUpdates_length origId (distribute tasks buckets)
    have h2 := sum_filter_split origId (distribute tasks buckets)
    have h3 := distribute_sum tasks buckets hb
    omega

/-- Witness for C3 at three tasks all starting in B0 and buckets B0, B1. -/
theorem split_move_list_witness :
    (∀ t ∈ sampleTasks, t.project = "B0") ∧ sampleTasks ≠ [] ∧ sampleBuckets ≠ [] ∧
    ((∀ t b, (t, b) ∈ moveUpdates "B0" (distribute sampleTasks sampleBuckets) ↔
        ((∃ s, (b, s) ∈ distribute sampleTasks sampleBuckets ∧ t ∈ s) ∧
          b ≠ t.project)) ∧
      (moveUpdates "B0" (distribute sampleTasks sampleBuckets)).length
        = sampleTasks.length
          - (((distribute sampleTasks sampleBuckets).filter
              (fun p => p.1 == "B0")).map (fun p => p.2.length)).sum) :=
  ⟨by decide, by decide, by decide,
    split_move_list sampleTasks sampleBuckets "B0" (by decide) (by decide) (by decide)⟩

/-- C9: the original project is the first bucket of `projects_to_use`, so its
slice is at least as large as every other bucket's slice, and whenever the
partition has a non-zero remainder the original project receives the larger
count `M / K + 1`. -/
theorem split_original_first_bucket (tasks : List ProjectTask) (origId : String)
    (others : List String) :
    ∃ s, (distribute tasks (projectsToUse origId others)).head? = some (origId, s) ∧
      (∀ p ∈ distribute tasks (projectsToUse origId others), p.2.length ≤ s.length) ∧
      (tasks.length % (projectsToUse origId others).length ≠ 0 →
        s.length
          = tasks.length / (projectsToUse origId others).length + 1) := by
  have hK : 0 < (projectsToUse origId others).length := by
    simp [projectsToUse]
  have h1 : (projectsToUse origId others).length
        * (tasks.length / (projectsToUse origId others).length)
      + tasks.length % (projectsToUse origId others).length = tasks.length :=
    Nat.div_add_mod _ _
  have h2 : tasks.length / (projectsToUse origId others).length
      ≤ (projectsToUse origId others).length
        * (tasks.length / (projectsToUse origId others).length) :=
    Nat.le_mul_of_pos_left _ hK
  have hc0 : tasks.length / (projectsToUse origId others).length
      + (if 0 < tasks.length % (projectsToUse origId others).length then 1 else 0)
      ≤ tasks.length := by
    by_cases h0 : 0 < tasks.length % (projectsToUse origId others).length <;>
      simp only [h0, if_true, if_false, if_pos, if_neg, not_false_iff] <;>
      [skip; skip] <;>
      · generalize (projectsToUse origId others).length
          * (tasks.length / (projectsToUse origId others).length) = X at h1 h2
        generalize tasks.length % (projectsToUse origId others).length = R at h1 h0
        omega
  refine ⟨tasks.take (tasks.length / (projectsToUse origId others).length
      + if 0 < tasks.length % (projectsToUse origId others).length then 1 else 0),
    ?_, ?_, ?_⟩
  · rw [show projectsToUse origId others = origId :: others from rfl,
      distribute_cons]
    rfl
  · intro p hp
    have hle := sliceLoop_length_le tasks
      (tasks.length / (projectsToUse origId others).length)
      (tasks.length % (projectsToUse origId others).length)
      (projectsToUse origId others) 0 0 p hp
    rw [List.length_take]
    omega
  · intro hrem
    rw [List.length_take, if_pos (Nat.pos_of_ne_zero hrem)]
    rw [if_pos (Nat.pos_of_ne_zero hrem)] at hc0
    omega

/-- Witness for C9 at three tasks, original project B0 and one extra bucket. -/
theorem split_original_first_bucket_witness :
    ∃ s, (distribute sampleTasks (projectsToUse "B0" ["B1"])).head?
        = some ("B0", s) ∧
      (∀ p ∈ distribute sampleTasks (projectsToUse "B0" ["B1"]),
        p.2.length ≤ s.length) ∧
      (sampleTasks.length % (projectsToUse "B0" ["B1"]).length ≠ 0 →
        s.length
          = sampleTasks.length / (projectsToUse "B0" ["B1"]).length + 1) :=
  split_original_first_bucket sampleTasks "B0" ["B1"]

/-- C10: a run whose task query returns the empty list takes the early
return of lines 115-117: a normal, side-effect-free no-op result carrying no
distribution and no updates, before any project is created or any task
updated. -/
theorem split_empty_early_return (origId : String) (others : List String) :
    splitTasksMain origId [] others = SplitResult.noTasks := rfl

/-- C4 counterexample: with an empty task list the script returns normally
through the early return of lines 115-117 instead of failing with an
InvalidInput condition, and the partition applied to an empty bucket list
yields an empty mapping in this embedding (the script itself can never reach
that case because the bucket list always contains the original project). -/
theorem split_empty_rejection_counterexample :
    splitTasksMain "B0" [] [] = SplitResult.noTasks ∧
    distribute [⟨"t1", "Task 1", "B0"⟩] [] = [] :=
  ⟨rfl, rfl⟩

/-- C4 amended: the script does not reject empty inputs.  An empty task list
is handled by a normal early return that performs no partition and no
updates, and the bucket list handed to the partition loop is never empty
because it always starts with the original project; a non-empty task list
always proceeds to a full distribution with its move updates. -/
theorem split_empty_noop (origId : String) (others : List String)
    (tasks : List ProjectTask) :
    splitTasksMain origId [] others = SplitResult.noTasks ∧
    projectsToUse origId others ≠ [] ∧
    (tasks ≠ [] →
      splitTasksMain origId tasks others
        = SplitResult.done (distribute tasks (projectsToUse origId others))
            (moveUpdates origId (distribute tasks (projectsToUse origId others)))) := by
  refine ⟨rfl, by simp [projectsToUse], fun htne => ?_⟩
  unfold splitTasksMain
  rw [if_neg (fun h0 => htne (List.length_eq_zero.mp h0))]

/-- Witness for C4 amended at concrete inputs. -/
theorem split_empty_noop_witness :
    splitTasksMain "B0" [] ["B1"] = SplitResult.noTasks ∧
    projectsToUse "B0" ["B1"] ≠ [] ∧
    (sampleTasks ≠ [] →
      splitTasksMain "B0" sampleTasks ["B1"]
        = SplitResult.done (distribute sampleTasks (projectsToUse "B0" ["B1"]))
            (moveUpdates "B0" (distribute sampleTasks (projectsToUse "B0" ["B1"])))) :=
  split_empty_noop "B0" ["B1"] sampleTasks

lemma getD_mem_or_eq {α : Type} (d : α) :
    ∀ (l : List α) (n : Nat), l.getD n d ∈ l ∨ l.getD n d = d := by
  intro l
  induction l with
  | nil => intro n; right; cases n <;> rfl
  | cons x l ih =>
    intro n
    cases n with
    | zero => left; rw [List.getD_cons_zero]; exact List.mem_cons_self _ _
    | succ n =>
      rw [List.getD_cons_succ]
      rcases ih n with h | h
      · left; exact List.mem_cons_of_mem _ h
      · right; exact h

lemma buildCandidates_cases (account_id : String) (me : OwnerInfo)
    (kevin william : Option OwnerInfo) (r : Int) :
    ∀ c ∈ buildCandidates account_id me kevin william r,
      c.1 = (0.55 : ℚ) ∨ c.1 = (0.35 : ℚ) ∨ c.1 = (0.10 : ℚ) := by
  intro c hc
  rcases kevin with _ | k <;> rcases william with _ | w <;>
    simp only [buildCandidates, List.append_nil, List.nil_append,
      List.singleton_append, List.cons_append] at hc
  · rw [List.mem_singleton.mp hc]; left; rfl
  · split at hc
    · rcases List.mem_cons.mp hc with h | h
      · rw [h]; left; rfl
      · rw [List.mem_singleton.mp h]; right; right; rfl
    · rw [List.mem_singleton.mp hc]; left; rfl
  · rcases List.mem_cons.mp hc with h | h
    · rw [h]; left; rfl
    · rw [List.mem_singleton.mp h]; right; left; rfl
  · split at hc
    · rcases List.mem_cons.mp hc with h | h
      · rw [h]; left; rfl
      · rcases List.mem_cons.mp h with h2 | h2
        · rw [h2]; right; left; rfl
        · rw [List.mem_singleton.mp h2]; right; right; rfl
    · rcases List.mem_cons.mp hc with h | h
      · rw [h]; left; rfl
      · rw [List.mem_singleton.mp h]; right; left; rfl

lemma buildCandidates_not_william (account_id : String) (me : OwnerInfo)
    (kevin : Option OwnerInfo) (w : OwnerInfo) (r : Int)
    (hme : me.user_id ≠ w.user_id)
    (hkevin : ∀ k, kevin = some k → k.user_id ≠ w.user_id)
    (hcond : ¬(w.account_id = some account_id ∧ 0 < r)) :
    ∀ c ∈ buildCandidates account_id me kevin (some w) r,
      c.2.user_id ≠ w.user_id := by
  intro c hc
  rcases kevin with _ | k <;>
    simp only [buildCandidates, if_neg hcond, List.append_nil, List.nil_append,
      List.singleton_append, List.cons_append] at hc
  · rw [List.mem_singleton.mp hc]; exact hme
  · rcases List.mem_cons.mp hc with h | h
    · rw [h]; exact hme
    · rw [List.mem_singleton.mp h]; exact hkevin k rfl

lemma pick_owner_fst (account_id : String) (me : OwnerInfo)
    (kevin william : Option OwnerInfo) (r : Int) (u : ℚ) :
    (pick_owner account_id me kevin william r u).1
      = pickChoice account_id me kevin william r u := by
  simp only [pick_owner]
  split <;> rfl

lemma pick_owner_snd (account_id : String) (me : OwnerInfo)
    (kevin : Option OwnerInfo) (w : OwnerInfo) (r : Int) (u : ℚ) :
    (pick_owner account_id me kevin (some w) r u).2
      = if (pickChoice account_id me kevin (some w) r u).user_id = w.user_id
        then r - 1 else r := by
  simp only [pick_owner, beq_iff_eq]
  split <;> rfl

lemma pick_owner_skip (account_id : String) (me : OwnerInfo)
    (kevin : Option OwnerInfo) (w : OwnerInfo) (r : Int) (u : ℚ)
    (hme : me.user_id ≠ w.user_id)
    (hkevin : ∀ k, kevin = some k → k.user_id ≠ w.user_id)
    (hcond : ¬(w.account_id = some account_id ∧ 0 < r)) :
    (pick_owner account_id me kevin (some w) r u).1.user_id ≠ w.user_id ∧
    (pick_owner account_id me kevin (some w) r u).2 = r := by
  have hch : (pickChoice account_id me kevin (some w) r u).user_id ≠ w.user_id := by
    unfold pickChoice
    rcases getD_mem_or_eq ((0 : ℚ), me)
        (buildCandidates account_id me kevin (some w) r)
        (pickIndex (normWeights account_id me kevin (some w) r) u) with h | h
    · exact buildCandidates_not_william account_id me kevin w r hme hkevin hcond _ h
    · rw [h]; exact hme
  refine ⟨by rw [pick_owner_fst]; exact hch, ?_⟩
  rw [pick_owner_snd, if_neg hch]

lemma pick_owner_william_pos (account_id : String) (me : OwnerInfo)
    (kevin : Option OwnerInfo) (w : OwnerInfo) (r : Int) (u : ℚ)
    (hme : me.user_id ≠ w.user_id)
    (hkevin : ∀ k, kevin = some k → k.user_id ≠ w.user_id)
    (hchosen : (pick_owner account_id me kevin (some w) r u).1.user_id = w.user_id) :
    0 < r := by
  by_contra h0
  exact (pick_owner_skip account_id me kevin w r u hme hkevin
    (fun hc => absurd hc.2 h0)).1 hchosen

lemma pick_owner_nonneg (account_id : String) (me : OwnerInfo)
    (kevin : Option OwnerInfo) (w : OwnerInfo) (r : Int) (u : ℚ)
    (hme : me.user_id ≠ w.user_id)
    (hkevin : ∀ k, kevin = some k → k.user_id ≠ w.user_id)
    (hr : 0 ≤ r) : 0 ≤ (pick_owner account_id me kevin (some w) r u).2 := by
  by_cases hch : (pick_owner account_id me kevin (some w) r u).1.user_id = w.user_id
  · have hpos := pick_owner_william_pos account_id me kevin w r u hme hkevin hch
    rw [pick_owner_fst] at hch
    rw [pick_owner_snd, if_pos hch]
    omega
  · rw [pick_owner_fst] at hch
    rw [pick_owner_snd, if_neg hch]
    exact hr

lemma runPick_quota_zero (account_id : String) (me : OwnerInfo)
    (kevin : Option OwnerInfo) (w : OwnerInfo)
    (hme : me.user_id ≠ w.user_id)
    (hkevin : ∀ k, kevin = some k → k.user_id ≠ w.user_id) :
    ∀ (us : List ℚ) (r : Int), r ≤ 0 →
      (∀ c ∈ (runPick account_id me kevin (some w) r us).1,
        c.user_id ≠ w.user_id) ∧
      (runPick account_id me kevin (some w) r us).2 ≤ 0 := by
  intro us
  induction us with
  | nil =>
    intro r hr
    exact ⟨fun c hc => absurd hc (List.not_mem_nil c), hr⟩
  | cons u us ih =>
    intro r hr
    have hskip := pick_owner_skip account_id me kevin w r u hme hkevin
      (fun hcnd => absurd hcnd.2 (by omega))
    have hr2 : (pick_owner account_id me kevin (some w) r u).2 ≤ 0 := by
      rw [hskip.2]; exact hr
    have hrest := ih (pick_owner account_id me kevin (some w) r u).2 hr2
    constructor
    · intro c hc
      simp only [runPick] at hc
      rcases List.mem_cons.mp hc with rfl | hm
      · exact hskip.1
      · exact hrest.1 c hm
    · simp only [runPick]
      exact hrest.2

lemma runPick_nonneg (account_id : String) (me : OwnerInfo)
    (kevin : Option OwnerInfo) (w : OwnerInfo)
    (hme : me.user_id ≠ w.user_id)
    (hkevin : ∀ k, kevin = some k → k.user_id ≠ w.user_id) :
    ∀ (us : List ℚ) (r : Int), 0 ≤ r →
      0 ≤ (runPick account_id me kevin (some w) r us).2 := by
  intro us
  induction us with
  | nil => intro r hr; exact hr
  | cons u us ih =>
    intro r hr
    simp only [runPick]
    exact ih _ (pick_owner_nonneg account_id me kevin w r u hme hkevin hr)

/-- C5: once the William quota counter `max_william["remaining"]` is down to
zero (or below), the eligibility check of line 156 excludes William from the
candidate list of every subsequent `pick_owner` call of the run, and no
subsequent call ever returns William, regardless of his weight. -/
theorem quota_exhaustion (account_id : String) (me : OwnerInfo)
    (kevin : Option OwnerInfo) (w : OwnerInfo) (r : Int) (us : List ℚ)
    (hme : me.user_id ≠ w.user_id)
    (hkevin : ∀ k, kevin = some k → k.user_id ≠ w.user_id)
    (hr : r ≤ 0) :
    (∀ c ∈ buildCandidates account_id me kevin (some w) r,
      c.2.user_id ≠ w.user_id) ∧
    (∀ c ∈ (runPick account_id me kevin (some w) r us).1,
      c.user_id ≠ w.user_id) :=
  ⟨buildCandidates_not_william account_id me kevin w r hme hkevin
      (fun h => absurd h.2 (by omega)),
    (runPick_quota_zero account_id me kevin w hme hkevin us r hr).1⟩

/-- Witness for C5: quota exhausted at 0, three further draws. -/
theorem quota_exhaustion_witness :
    meSample.user_id ≠ williamSample.user_id ∧
    (∀ k, (some kevinSample : Option OwnerInfo) = some k →
      k.user_id ≠ williamSample.user_id) ∧
    ((0 : Int) ≤ 0) ∧
    ((∀ c ∈ buildCandidates "aw" meSample (some kevinSample) (some williamSample) 0,
        c.2.user_id ≠ williamSample.user_id) ∧
      (∀ c ∈ (runPick "aw" meSample (some kevinSample) (some williamSample) 0
          [0, 1/2, 9/10]).1, c.user_id ≠ williamSample.user_id)) :=
  ⟨by decide, fun k hk => by injection hk with h; subst h; decide, le_refl 0,
    quota_exhaustion "aw" meSample (some kevinSample) williamSample 0
      [0, 1/2, 9/10] (by decide)
      (fun k hk => by injection hk with h; subst h; decide) (le_refl 0)⟩

/-- C6: a candidate restricted to one account is never selected under a
different scope token: when William's `account_id` differs from the
`account_id` argument, `pick_owner` never returns William. -/
theorem scope_restriction (account_id : String) (me : OwnerInfo)
    (kevin : Option OwnerInfo) (w : OwnerInfo) (r : Int) (u : ℚ)
    (hme : me.user_id ≠ w.user_id)
    (hkevin : ∀ k, kevin = some k → k.user_id ≠ w.user_id)
    (hscope : w.account_id ≠ some account_id) :
    (pick_owner account_id me kevin (some w) r u).1.user_id ≠ w.user_id :=
  (pick_owner_skip account_id me kevin w r u hme hkevin
    (fun h => hscope h.1)).1

/-- Witness for C6: William is tied to account "aw" and the scope token is
"a1", with a full quota of 4. -/
theorem scope_restriction_witness :
    meSample.user_id ≠ williamSample.user_id ∧
    (∀ k, (some kevinSample : Option OwnerInfo) = some k →
      k.user_id ≠ williamSample.user_id) ∧
    williamSample.account_id ≠ some "a1" ∧
    (pick_owner "a1" meSample (some kevinSample) (some williamSample) 4
        0).1.user_id ≠ williamSample.user_id :=
  ⟨by decide, fun k hk => by injection hk with h; subst h; decide, by decide,
    scope_restriction "a1" meSample (some kevinSample) williamSample 4 0
      (by decide) (fun k hk => by injection hk with h; subst h; decide)
      (by decide)⟩

/-- C8: the quota counter is decremented by exactly 1 when and only when the
chosen candidate is William, is unchanged when any other candidate is
chosen, and starting from a non-negative count it never becomes negative,
neither in one call nor across a whole run. -/
theorem quota_decrement (account_id : String) (me : OwnerInfo)
    (kevin : Option OwnerInfo) (w : OwnerInfo) (r : Int) (u : ℚ) (us : List ℚ)
    (hme : me.user_id ≠ w.user_id)
    (hkevin : ∀ k, kevin = some k → k.user_id ≠ w.user_id) :
    ((pick_owner account_id me kevin (some w) r u).1.user_id = w.user_id →
      (pick_owner account_id me kevin (some w) r u).2 = r - 1) ∧
    ((pick_owner account_id me kevin (some w) r u).1.user_id ≠ w.user_id →
      (pick_owner account_id me kevin (some w) r u).2 = r) ∧
    (0 ≤ r → 0 ≤ (pick_owner account_id me kevin (some w) r u).2) ∧
    (0 ≤ r → 0 ≤ (runPick account_id me kevin (some w) r us).2) := by
  refine ⟨?_, ?_, pick_owner_nonneg account_id me kevin w r u hme hkevin,
    runPick_nonneg account_id me kevin w hme hkevin us r⟩
  · intro h
    rw [pick_owner_fst] at h
    rw [pick_owner_snd, if_pos h]
  · intro h
    rw [pick_owner_fst] at h
    rw [pick_owner_snd, if_neg h]

/-- Witness for C8 at quota 1 and two further draws. -/
theorem quota_decrement_witness :
    meSample.user_id ≠ williamSample.user_id ∧
    (∀ k, (some kevinSample : Option OwnerInfo) = some k →
      k.user_id ≠ williamSample.user_id) ∧
    (((pick_owner "aw" meSample (some kevinSample) (some williamSample) 1
          0).1.user_id = williamSample.user_id →
        (pick_owner "aw" meSample (some kevinSample) (some williamSample) 1
          0).2 = 1 - 1) ∧
      ((pick_owner "aw" meSample (some kevinSample) (some williamSample) 1
          0).1.user_id ≠ williamSample.user_id →
        (pick_owner "aw" meSample (some kevinSample) (some williamSample) 1
          0).2 = 1) ∧
      ((0 : Int) ≤ 1 →
        0 ≤ (pick_owner "aw" meSample (some kevinSample) (some williamSample) 1
          0).2) ∧
      ((0 : Int) ≤ 1 →
        0 ≤ (runPick "aw" meSample (some kevinSample) (some williamSample) 1
          [0, 1/2]).2)) :=
  ⟨by decide, fun k hk => by injection hk with h; subst h; decide,
    quota_decrement "aw" meSample (some kevinSample) williamSample 1 0 [0, 1/2]
      (by decide) (fun k hk => by injection hk with h; subst h; decide)⟩

lemma pickIndex_eq_iff :
    ∀ (ws : List ℚ) (u : ℚ) (i : Nat), 0 ≤ u → (∀ x ∈ ws, 0 ≤ x) →
      i < ws.length →
      (pickIndex ws u = i ↔
        (ws.take i).sum ≤ u ∧ u < (ws.take (i + 1)).sum) := by
  intro ws
  induction ws with
  | nil => intro u i _ _ hi; simp at hi
  | cons w ws ih =>
    intro u i hu hws hi
    cases i with
    | zero =>
      rw [pickIndex]
      simp only [List.take_zero, List.sum_nil, List.take_succ_cons,
        List.sum_cons, add_zero]
      by_cases huw : u < w
      · rw [if_pos huw]
        simp [hu, huw]
      · rw [if_neg huw]
        constructor
        · intro h; exact absurd h (Nat.succ_ne_zero _)
        · rintro ⟨h1, h2⟩; exact absurd h2 huw
    | succ i =>
      rw [pickIndex]
      simp only [List.take_succ_cons, List.sum_cons]
      by_cases huw : u < w
      · rw [if_pos huw]
        constructor
        · intro h; exact absurd h.symm (Nat.succ_ne_zero i)
        · rintro ⟨h1, h2⟩
          exfalso
          have hsum : 0 ≤ (ws.take i).sum :=
            List.sum_nonneg (fun x hx =>
              hws x (List.mem_cons_of_mem _ (List.mem_of_mem_take hx)))
          linarith
      · rw [if_neg huw]
        have hwu : w ≤ u := le_of_not_lt huw
        have hmain := ih (u - w) i (by linarith)
          (fun x hx => hws x (List.mem_cons_of_mem _ hx)) (by simpa using hi)
        constructor
        · intro h
          have h2 := hmain.mp (Nat.succ_injective h)
          exact ⟨by linarith [h2.1], by linarith [h2.2]⟩
        · rintro ⟨h1, h2⟩
          have h3 := hmain.mpr ⟨by linarith, by linarith⟩
          omega

lemma sum_map_div (l : List ℚ) (s : ℚ) :
    (l.map (fun x => x / s)).sum = l.sum / s := by
  induction l with
  | nil => simp
  | cons x l ih => simp [ih, add_div]

lemma take_map_div (l : List ℚ) (s : ℚ) (n : Nat) :
    ((l.map (fun x => x / s)).take n).sum = (l.take n).sum / s := by
  rw [← List.map_take, sum_map_div]

lemma candWeights_pos (account_id : String) (me : OwnerInfo)
    (kevin william : Option OwnerInfo) (r : Int) :
    ∀ x ∈ candWeights account_id me kevin william r, 0 < x := by
  intro x hx
  rcases List.mem_map.mp hx with ⟨c, hc, rfl⟩
  rcases buildCandidates_cases account_id me kevin william r c hc with h | h | h <;>
    rw [h] <;> norm_num

lemma candWeights_ne_nil (account_id : String) (me : OwnerInfo)
    (kevin william : Option OwnerInfo) (r : Int) :
    candWeights account_id me kevin william r ≠ [] := by
  unfold candWeights buildCandidates
  simp

lemma candWeights_sum_pos (account_id : String) (me : OwnerInfo)
    (kevin william : Option OwnerInfo) (r : Int) :
    0 < (candWeights account_id me kevin william r).sum :=
  List.sum_pos _ (candWeights_pos account_id me kevin william r)
    (candWeights_ne_nil account_id me kevin william r)

/-- C7: the base weights of the eligible candidates are normalized to sum to
1 before sampling, and for a uniform variate in the unit interval the drawn
index is i exactly when the variate lands in the half-open interval between
consecutive cumulative normalized weights, an interval of length
weight i divided by the sum of the eligible base weights; the candidate the
script returns is the one at that index. -/
theorem weight_normalization (account_id : String) (me : OwnerInfo)
    (kevin william : Option OwnerInfo) (r : Int) (i : Nat) (u : ℚ)
    (hi : i < (candWeights account_id me kevin william r).length)
    (hu0 : 0 ≤ u) (hu1 : u < 1) :
    (normWeights account_id me kevin william r).sum = 1 ∧
    (pickIndex (normWeights account_id me kevin william r) u = i ↔
      ((candWeights account_id me kevin william r).take i).sum
          / (candWeights account_id me kevin william r).sum ≤ u ∧
        u < ((candWeights account_id me kevin william r).take (i + 1)).sum
          / (candWeights account_id me kevin william r).sum) ∧
    ((candWeights account_id me kevin william r).take (i + 1)).sum
        / (candWeights account_id me kevin william r).sum
      - ((candWeights account_id me kevin william r).take i).sum
        / (candWeights account_id me kevin william r).sum
      = (candWeights account_id me kevin william r).getD i 0
        / (candWeights account_id me kevin william r).sum ∧
    (pick_owner account_id me kevin william r u).1
      = ((buildCandidates account_id me kevin william r).getD
          (pickIndex (normWeights account_id me kevin william r) u)
          ((0 : ℚ), me)).2 := by
  have hpos := candWeights_pos account_id me kevin william r
  have hsum := candWeights_sum_pos account_id me kevin william r
  have hlen : (normWeights account_id me kevin william r).length
      = (candWeights account_id me kevin william r).length := by
    unfold normWeights; rw [List.length_map]
  have hnn : ∀ x ∈ normWeights account_id me kevin william r, 0 ≤ x := by
    intro x hx
    unfold normWeights at hx
    rcases List.mem_map.mp hx with ⟨y, hy, rfl⟩
    exact le_of_lt (div_pos (hpos _ hy) hsum)
  have htake : ∀ n, ((normWeights account_id me kevin william r).take n).sum
      = ((candWeights account_id me kevin william r).take n).sum
        / (candWeights account_id me kevin william r).sum := by
    intro n; unfold normWeights; exact take_map_div _ _ n
  refine ⟨?_, ?_, ?_, ?_⟩
  · unfold normWeights
    rw [sum_map_div]
    exact div_self (ne_of_gt hsum)
  · have hiff := pickIndex_eq_iff (normWeights account_id me kevin william r)
      u i hu0 hnn (by rw [hlen]; exact hi)
    rw [htake i, htake (i + 1)] at hiff
    exact hiff
  · have hstep := List.sum_take_succ
      (candWeights account_id me kevin william r) i hi
    rw [hstep, List.getD_eq_getElem (candWeights account_id me kevin william r) 0 hi,
      add_div]
    ring
  · rw [pick_owner_fst]
    rfl

/-- Witness for C7 at index 0 and variate 0 with all three candidates
eligible. -/
theorem weight_normalization_witness :
    (0 < (candWeights "aw" meSample (some kevinSample) (some williamSample)
        4).length) ∧
    ((0 : ℚ) ≤ 0) ∧ ((0 : ℚ) < 1) ∧
    ((normWeights "aw" meSample (some kevinSample) (some williamSample) 4).sum
        = 1 ∧
      (pickIndex (normWeights "aw" meSample (some kevinSample)
          (some williamSample) 4) 0 = 0 ↔
        ((candWeights "aw" meSample (some kevinSample)
            (some williamSample) 4).take 0).sum
            / (candWeights "aw" meSample (some kevinSample)
              (some williamSample) 4).sum ≤ 0 ∧
          (0 : ℚ) < ((candWeights "aw" meSample (some kevinSample)
              (some williamSample) 4).take (0 + 1)).sum
            / (candWeights "aw" meSample (some kevinSample)
              (some williamSample) 4).sum) ∧
      ((candWeights "aw" meSample (some kevinSample)
          (some williamSample) 4).take (0 + 1)).sum
          / (candWeights "aw" meSample (some kevinSample)
            (some williamSample) 4).sum
        - ((candWeights "aw" meSample (some kevinSample)
            (some williamSample) 4).take 0).sum
          / (candWeights "aw" meSample (some kevinSample)
            (some williamSample) 4).sum
        = (candWeights "aw" meSample (some kevinSample)
            (some williamSample) 4).getD 0 0
          / (candWeights "aw" meSample (some kevinSample)
            (some williamSample) 4).sum ∧
      (pick_owner "aw" meSample (some kevinSample) (some williamSample) 4
          0).1
        = ((buildCandidates "aw" meSample (some kevinSample)
            (some williamSample) 4).getD
            (pickIndex (normWeights "aw" meSample (some kevinSample)
              (some williamSample) 4) 0) ((0 : ℚ), meSample)).2) :=
  ⟨by decide, le_refl 0, zero_lt_one,
    weight_normalization "aw" meSample (some kevinSample) (some williamSample)
      4 0 0 (by decide) (le_refl 0) zero_lt_one⟩
